import Mathlib

/-!
Shallow embedding of the pymonalisa repository (license CDM host bridge).

Byte buffers are modelled as `List Nat` (each entry a byte value < 256 where
the Python type system guarantees it), strings as `List Char` (one entry per
Unicode code point, matching Python's `str` indexing and `len`).
-/

namespace Pymonalisa

/-! ### Python `base64` module

`base64.b64encode` is the canonical RFC 4648 encoder.  `base64.b64decode`
(with the default `validate=False`) follows CPython's `binascii.a2b_base64`
legacy mode: characters outside the alphabet are discarded, a `=` seen when
the current quad already holds 2 or 3 data characters and enough pads have
accumulated terminates decoding (trailing garbage ignored), and a leftover
partial quad at the end is an error (`None` here). -/

def b64char (n : Nat) : Char :=
  if n < 26 then Char.ofNat (65 + n)
  else if n < 52 then Char.ofNat (97 + (n - 26))
  else if n < 62 then Char.ofNat (48 + (n - 52))
  else if n = 62 then '+'
  else '/'

def b64encodeList : List Nat → List Char
  | [] => []
  | [a] =>
    let a := a % 256
    [b64char (a / 4), b64char (a % 4 * 16), '=', '=']
  | [a, b] =>
    let a := a % 256
    let b := b % 256
    [b64char (a / 4), b64char (a % 4 * 16 + b / 16), b64char (b % 16 * 4), '=']
  | a :: b :: c :: rest =>
    let a := a % 256
    let b := b % 256
    let c := c % 256
    b64char (a / 4) :: b64char (a % 4 * 16 + b / 16) ::
      b64char (b % 16 * 4 + c / 64) :: b64char (c % 64) :: b64encodeList rest

/-- Value of a base64 alphabet character (CPython's `table_a2b_base64`). -/
def b64val (c : Char) : Option Nat :=
  if 'A' ≤ c ∧ c ≤ 'Z' then some (c.toNat - 65)
  else if 'a' ≤ c ∧ c ≤ 'z' then some (c.toNat - 97 + 26)
  else if '0' ≤ c ∧ c ≤ '9' then some (c.toNat - 48 + 52)
  else if c = '+' then some 62
  else if c = '/' then some 63
  else none

/-- CPython `binascii.a2b_base64`, non-strict mode.  State: `quadPos` is the
number of data characters in the current quad, `leftchar` the pending bits,
`pads` the number of `=` seen since the last data character, `acc` the output
bytes in reverse order. -/
def a2bBase64 : List Char → Nat → Nat → Nat → List Nat → Option (List Nat)
  | [], quadPos, _, _, acc => if quadPos = 0 then some acc.reverse else none
  | c :: rest, quadPos, leftchar, pads, acc =>
    if c = '=' then
      if 2 ≤ quadPos ∧ 4 ≤ quadPos + (pads + 1) then some acc.reverse
      else a2bBase64 rest quadPos leftchar (pads + 1) acc
    else
      match b64val c with
      | none => a2bBase64 rest quadPos leftchar pads acc
      | some d =>
        match quadPos with
        | 0 => a2bBase64 rest 1 d 0 acc
        | 1 => a2bBase64 rest 2 (d % 16) 0 ((leftchar * 4 + d / 16) :: acc)
        | 2 => a2bBase64 rest 3 (d % 4) 0 ((leftchar * 16 + d / 4) :: acc)
        | _ => a2bBase64 rest 0 0 0 ((leftchar * 64 + d) :: acc)

/-- `base64.b64decode` on a text input; `none` models `binascii.Error`. -/
def b64decodePy (s : List Char) : Option (List Nat) :=
  a2bBase64 s 0 0 0 []

/-! ### UTF-8 (`str.encode("utf-8")` / `bytes.decode`) -/

def utf8EncodeChar (c : Char) : List Nat :=
  let n := c.toNat
  if n < 128 then [n]
  else if n < 2048 then [192 + n / 64, 128 + n % 64]
  else if n < 65536 then [224 + n / 4096, 128 + n / 64 % 64, 128 + n % 64]
  else [240 + n / 262144, 128 + n / 4096 % 64, 128 + n / 64 % 64, 128 + n % 64]

def utf8Encode (s : List Char) : List Nat :=
  (s.map utf8EncodeChar).flatten

/-- `bytes.decode("ascii", errors="ignore")`: keep bytes < 128, drop the rest. -/
def decodeAsciiIgnore (bs : List Nat) : List Char :=
  bs.filterMap fun b => if b < 128 then some (Char.ofNat b) else none

/-! ### `pymonalisa/license.py` — class `License`

`License.__init__` accepts either a Python `str` or `bytes`; the sum type
`PyData` models that argument. -/

inductive PyData
  | str (s : List Char)
  | bytes (b : List Nat)
deriving DecidableEq

structure License where
  data : List Nat
  data_b64 : List Char
deriving DecidableEq

/-- `License.__init__`: a `str` is tried as base64, falling back to treating
it as raw UTF-8 text re-encoded canonically; `bytes` are kept raw and
encoded canonically. -/
def License.init : PyData → License
  | .str s =>
    match b64decodePy s with
    | some d => ⟨d, s⟩
    | none =>
      let raw := utf8Encode s
      ⟨raw, b64encodeList raw⟩
  | .bytes b => ⟨b, b64encodeList b⟩

/-- Property `License.raw`. -/
def License.raw (l : License) : List Nat := l.data

/-- Property `License.b64`. -/
def License.b64 (l : License) : List Char := l.data_b64

/-! ### SHA-1 and `uuid.uuid5` (used for key-identifier derivation)

`uuid.uuid5(namespace, name)` hashes `namespace.bytes + name.encode("utf-8")`
with SHA-1, keeps the first 16 bytes, and forces the version nibble (byte 6
high nibble := 5) and the variant bits (byte 8 := `(b & 0x3F) | 0x80`). -/

def rotl32 (n x : Nat) : Nat :=
  (x <<< n ||| x >>> (32 - n)) % 4294967296

def sha1F (t b c d : Nat) : Nat :=
  if t < 20 then b &&& c ||| (b ^^^ 4294967295) &&& d
  else if t < 40 then b ^^^ c ^^^ d
  else if t < 60 then b &&& c ||| b &&& d ||| c &&& d
  else b ^^^ c ^^^ d

def sha1K (t : Nat) : Nat :=
  if t < 20 then 1518500249
  else if t < 40 then 1859775393
  else if t < 60 then 2400959708
  else 3395469782

/-- Message padding: append `0x80`, zero bytes to reach 56 mod 64, then the
bit length as 8 bytes big-endian. -/
def sha1Pad (msg : List Nat) : List Nat :=
  let z := (56 + 64 - (msg.length + 1) % 64) % 64
  let bitLen := msg.length * 8
  msg ++ 128 :: List.replicate z 0 ++
    [bitLen / 72057594037927936 % 256, bitLen / 281474976710656 % 256,
     bitLen / 1099511627776 % 256, bitLen / 4294967296 % 256,
     bitLen / 16777216 % 256, bitLen / 65536 % 256,
     bitLen / 256 % 256, bitLen % 256]

/-- Big-endian 32-bit words from a byte list. -/
def be32Words : List Nat → List Nat
  | a :: b :: c :: d :: rest =>
    (a % 256 * 16777216 + b % 256 * 65536 + c % 256 * 256 + d % 256) :: be32Words rest
  | _ => []

/-- Extend the 16 message-schedule words to 80. -/
def sha1Extend (ws : List Nat) : Nat → List Nat
  | 0 => ws
  | fuel + 1 =>
    let k := ws.length
    let w := rotl32 1 (ws.getD (k - 3) 0 ^^^ ws.getD (k - 8) 0 ^^^
      ws.getD (k - 14) 0 ^^^ ws.getD (k - 16) 0)
    sha1Extend (ws ++ [w]) fuel

def sha1Round (st : Nat × Nat × Nat × Nat × Nat) (t w : Nat) :
    Nat × Nat × Nat × Nat × Nat :=
  let (a, b, c, d, e) := st
  let temp := (rotl32 5 a + sha1F t b c d + e + sha1K t + w) % 4294967296
  (temp, a, rotl32 30 b, c, d)

def sha1Block (h : Nat × Nat × Nat × Nat × Nat) (block : List Nat) :
    Nat × Nat × Nat × Nat × Nat :=
  let ws := sha1Extend (be32Words block) 64
  let (h0, h1, h2, h3, h4) := h
  let (a, b, c, d, e) :=
    (List.range 80).foldl (fun st t => sha1Round st t (ws.getD t 0)) h
  ((h0 + a) % 4294967296, (h1 + b) % 4294967296, (h2 + c) % 4294967296,
   (h3 + d) % 4294967296, (h4 + e) % 4294967296)

def toBlocks (l : List Nat) : List (List Nat) :=
  if h : l = [] then []
  else l.take 64 :: toBlocks (l.drop 64)
termination_by l.length
decreasing_by
  simp only [List.length_drop]
  have : 0 < l.length := List.length_pos.mpr h
  omega

def word32Bytes (w : Nat) : List Nat :=
  [w / 16777216 % 256, w / 65536 % 256, w / 256 % 256, w % 256]

/-- SHA-1 digest (20 bytes) of a byte list. -/
def sha1 (msg : List Nat) : List Nat :=
  let (h0, h1, h2, h3, h4) := (toBlocks (sha1Pad msg)).foldl sha1Block
    (1732584193, 4023233417, 2562383102, 271733878, 3285377520)
  word32Bytes h0 ++ word32Bytes h1 ++ word32Bytes h2 ++ word32Bytes h3 ++
    word32Bytes h4

/-- `uuid.NAMESPACE_DNS.bytes`. -/
def NAMESPACE_DNS : List Nat :=
  [107, 167, 184, 16, 157, 173, 17, 209, 128, 180, 0, 192, 79, 212, 48, 200]

/-- `uuid.uuid5(ns, name).bytes`. -/
def uuid5Bytes (ns : List Nat) (name : List Char) : List Nat :=
  let digest := sha1 (ns ++ utf8Encode name)
  let b := digest.take 16
  (b.set 6 ((b.getD 6 0 &&& 15) ||| 80)).set 8 ((b.getD 8 0 &&& 63) ||| 128)

/-- `uuid.UUID(int=0).bytes`. -/
def zeroUuidBytes : List Nat := List.replicate 16 0

/-! ### The correlation-identifier pattern

`re.search(r"DCID-[A-Z0-9]+-[A-Z0-9]+-\d{8}-\d{6}-[A-Z0-9]+-\d{10}-[A-Z0-9]+", text)`.
Every character class of the pattern excludes the separator `-`, and every
greedy `+`/`{n}` group is followed by a literal `-` (except the last), so
backtracking never helps: at a given start position the regex matches iff the
literal `DCID-` is followed by maximal alphanumeric runs and exact-width digit
runs separated by single hyphens.  `re.search` returns the match at the
leftmost start position that succeeds (the input text here is always ASCII,
produced by `decodeAsciiIgnore`, so the ASCII classes below coincide with
Python's Unicode-aware ones). -/

def isUpperDigit (c : Char) : Bool :=
  ('A' ≤ c && c ≤ 'Z') || ('0' ≤ c && c ≤ '9')

def isDigitChar (c : Char) : Bool :=
  '0' ≤ c && c ≤ '9'

/-- Maximal nonempty run of characters satisfying `p`, then a literal `-`. -/
def runThenDash (p : Char → Bool) (l : List Char) :
    Option (List Char × List Char) :=
  let run := l.takeWhile p
  match l.dropWhile p with
  | '-' :: rest => if run.isEmpty then none else some (run, rest)
  | _ => none

/-- Exactly `n` characters satisfying `p`, then a literal `-`. -/
def exactThenDash (p : Char → Bool) (n : Nat) (l : List Char) :
    Option (List Char × List Char) :=
  let pre := l.take n
  if pre.length = n && pre.all p then
    match l.drop n with
    | '-' :: rest => some (pre, rest)
    | _ => none
  else none

/-- Attempt the pattern anchored at the head of `l`; returns the matched
substring (`m.group()`). -/
def matchDCIDAt : List Char → Option (List Char)
  | 'D' :: 'C' :: 'I' :: 'D' :: '-' :: rest => do
    let (f1, rest) ← runThenDash isUpperDigit rest
    let (f2, rest) ← runThenDash isUpperDigit rest
    let (d8, rest) ← exactThenDash isDigitChar 8 rest
    let (d6, rest) ← exactThenDash isDigitChar 6 rest
    let (f5, rest) ← runThenDash isUpperDigit rest
    let (d10, rest) ← exactThenDash isDigitChar 10 rest
    let f7 := rest.takeWhile isUpperDigit
    if f7.isEmpty then none
    else
      some ("DCID-".toList ++ f1 ++ '-' :: f2 ++ '-' :: d8 ++ '-' :: d6 ++
        '-' :: f5 ++ '-' :: d10 ++ '-' :: f7)
  | _ => none

/-- `re.search` over the text: leftmost matching start position. -/
def reSearchDCID : List Char → Option (List Char)
  | [] => none
  | c :: rest =>
    match matchDCIDAt (c :: rest) with
    | some m => some m
    | none => reSearchDCID rest

/-- Key-identifier derivation of `Session.parse_license` as a function of the
decoded ticket text (cdm.py lines 191–198). -/
def deriveKid (text : List Char) : List Nat :=
  match reSearchDCID text with
  | some m => uuid5Bytes NAMESPACE_DNS m
  | none => zeroUuidBytes

/-! ### `pymonalisa/types.py` -/

inductive KeyType
  | CONTENT
  | SIGNING
  | OTT
  | OPERATOR_SESSION
deriving DecidableEq

structure Key where
  kid : List Nat
  key : List Nat
  type : KeyType
  permissions : Option (List (List Char)) := none
deriving DecidableEq

/-! ### `pymonalisa/exceptions.py`

Only the message-carrying distinction between the exception classes matters
for the claims. -/

inductive PyErr
  | licenseError (msg : List Char)
  | sessionError (msg : List Char)
  | otherError (msg : List Char)
deriving DecidableEq

def PyErr.isLicenseError : PyErr → Bool
  | .licenseError _ => true
  | _ => false

/-- The message an exception prints inside an f-string (`str(e)`). -/
def PyErr.message : PyErr → List Char
  | .licenseError m => m
  | .sessionError m => m
  | .otherError m => m

/-! ### `pymonalisa/utils.py` hex helpers and `bytes.hex` / `bytes.fromhex` -/

def hexDigitChar (n : Nat) : Char :=
  if n < 10 then Char.ofNat (48 + n) else Char.ofNat (87 + n)

/-- `bytes.hex()` (lowercase). -/
def bytesToHex (bs : List Nat) : List Char :=
  (bs.map fun b => [hexDigitChar (b % 256 / 16), hexDigitChar (b % 256 % 16)]).flatten

def hexDigitVal (c : Char) : Option Nat :=
  if '0' ≤ c ∧ c ≤ '9' then some (c.toNat - 48)
  else if 'a' ≤ c ∧ c ≤ 'f' then some (c.toNat - 87)
  else if 'A' ≤ c ∧ c ≤ 'F' then some (c.toNat - 55)
  else none

/-- `bytes.fromhex` restricted to inputs without whitespace; `none` models
`ValueError`. -/
def bytesFromHex : List Char → Option (List Nat)
  | [] => some []
  | [_] => none
  | c1 :: c2 :: rest => do
    let h ← hexDigitVal c1
    let l ← hexDigitVal c2
    let tl ← bytesFromHex rest
    pure ((h * 16 + l) :: tl)

/-! ### `pymonalisa/cdm.py` — class `Session` constants and state

Only the fields the claims observe are carried: the accumulated key list.
Guest-side state (instance, linear memory, stack pointer) is threaded
explicitly where a claim needs it. -/

def DYNAMIC_BASE : Nat := 6065008
def DYNAMICTOP_PTR : Nat := 821968
def LICENSE_KEY_OFFSET : Nat := 0x5C8C0C
def LICENSE_KEY_LENGTH : Nat := 16

structure SessionSt where
  keys : List Key
deriving DecidableEq

/-- `Session._extract_license_key` (returns the hex string; the bounds check
against the memory length precedes the read). -/
def extractLicenseKey (mem : List Nat) : Except PyErr (List Char) :=
  if LICENSE_KEY_OFFSET + LICENSE_KEY_LENGTH > mem.length then
    .error (.licenseError "License key offset beyond memory bounds".toList)
  else
    .ok (bytesToHex ((mem.drop LICENSE_KEY_OFFSET).take LICENSE_KEY_LENGTH))

/-- Outcome of the `monalisa_set_license` guest call made through `_ccall`:
either an exception escaping the call, or the returned code together with the
guest linear memory after the call.  The guest module is opaque, so
`parse_license` is parameterised by this outcome. -/
def wrapParseErr (e : PyErr) : PyErr :=
  .licenseError ("Failed to parse license: ".toList ++ e.message)

/-- `Session.parse_license` (cdm.py lines 172–206).  Returns the Python
outcome (normal return or raised exception) together with the session state;
the only session mutation in the `try` block is the final key append. -/
def parse_license (callResult : Except PyErr (Int × List Nat))
    (st : SessionSt) (lic : License) : Except PyErr Unit × SessionSt :=
  match callResult with
  | .error e => (.error (wrapParseErr e), st)
  | .ok (ret, mem) =>
    if ret ≠ 0 then
      (.error (wrapParseErr (.licenseError
        ("License validation failed with code: ".toList ++
          (toString ret).toList))), st)
    else
      match extractLicenseKey mem with
      | .error e => (.error (wrapParseErr e), st)
      | .ok keyHex =>
        match bytesFromHex keyHex with
        | none => (.error (wrapParseErr (.otherError
            "non-hexadecimal number found in fromhex() arg".toList)), st)
        | some keyBytes =>
          match b64decodePy lic.b64 with
          | none => (.error (wrapParseErr (.otherError
              "Invalid base64-encoded string".toList)), st)
          | some rawLic =>
            let kid := deriveKid (decodeAsciiIgnore rawLic)
            (.ok (), ⟨st.keys ++ [Key.mk kid keyBytes .CONTENT none]⟩)

/-! ### `Session._ccall` return-value interpretation (cdm.py lines 269–273)

The source checks `isinstance(return_type, str)` and
`isinstance(return_type, bool)`.  The call sites pass *type objects* (e.g.
`int`), for which both `isinstance` tests are `False`.  A small Python value
universe makes that semantics explicit. -/

inductive PyType
  | tInt
  | tStr
  | tBool
deriving DecidableEq

inductive PyVal
  | int (n : Int)
  | str (s : List Char)
  | bool (b : Bool)
  | type (t : PyType)
deriving DecidableEq

/-- Python `isinstance(v, str)`. -/
def pyIsinstanceStr : PyVal → Bool
  | .str _ => true
  | _ => false

/-- Python `isinstance(v, bool)`. -/
def pyIsinstanceBool : PyVal → Bool
  | .bool _ => true
  | _ => false

/-- Strict UTF-8 decoding (`bytes.decode("utf-8")`); `none` models
`UnicodeDecodeError`.  Continuation bytes must be `10xxxxxx`, overlong
encodings, surrogates and values beyond `0x10FFFF` are rejected. -/
def utf8DecodeStrict : List Nat → Option (List Char)
  | [] => some []
  | b :: rest =>
    if b < 128 then do
      pure (Char.ofNat b :: (← utf8DecodeStrict rest))
    else if 192 ≤ b ∧ b < 224 then
      match rest with
      | b1 :: rest' =>
        if 128 ≤ b1 ∧ b1 < 192 then
          let n := (b - 192) * 64 + (b1 - 128)
          if n < 128 then none
          else do pure (Char.ofNat n :: (← utf8DecodeStrict rest'))
        else none
      | _ => none
    else if 224 ≤ b ∧ b < 240 then
      match rest with
      | b1 :: b2 :: rest' =>
        if (128 ≤ b1 ∧ b1 < 192) ∧ (128 ≤ b2 ∧ b2 < 192) then
          let n := (b - 224) * 4096 + (b1 - 128) * 64 + (b2 - 128)
          if n < 2048 ∨ (55296 ≤ n ∧ n < 57344) then none
          else do pure (Char.ofNat n :: (← utf8DecodeStrict rest'))
        else none
      | _ => none
    else if 240 ≤ b ∧ b < 245 then
      match rest with
      | b1 :: b2 :: b3 :: rest' =>
        if (128 ≤ b1 ∧ b1 < 192) ∧ (128 ≤ b2 ∧ b2 < 192) ∧
            (128 ≤ b3 ∧ b3 < 192) then
          let n := (b - 240) * 262144 + (b1 - 128) * 4096 +
            (b2 - 128) * 64 + (b3 - 128)
          if n < 65536 ∨ 1114111 < n then none
          else do pure (Char.ofNat n :: (← utf8DecodeStrict rest'))
        else none
      | _ => none
    else none

/-- `Session._utf8_to_string` (cdm.py lines 318–340): empty string for a NULL
or out-of-bounds pointer, otherwise the bytes up to the first NUL (or the end
of memory), decoded as UTF-8. -/
def utf8_to_string (mem : List Nat) (ptr : Nat) : Option (List Char) :=
  if ptr = 0 then some []
  else if ptr ≥ mem.length then some []
  else utf8DecodeStrict ((mem.drop ptr).takeWhile (· ≠ 0))

/-- The return-value interpretation of `Session._ccall` exactly as written
(cdm.py lines 269–273): `isinstance` tests on the value passed as
`return_type`; `none` models an exception escaping the interpretation. -/
def ccallInterpretResult (return_type : PyVal) (mem : List Nat)
    (result : Int) : Option PyVal :=
  if pyIsinstanceStr return_type then
    (utf8_to_string mem result.toNat).map PyVal.str
  else if pyIsinstanceBool return_type then
    some (.bool (result ≠ 0))
  else some (.int result)

/-- The interpretation the specification describes: dispatch on the *kind of
result the caller requests* (the type object passed as `return_type`) —
integer passthrough, boolean coercion, or NUL-terminated-string read.
Stated from the spec's words for comparison with `ccallInterpretResult`. -/
def ccallInterpretResultSpec (requested : PyType) (mem : List Nat)
    (result : Int) : Option PyVal :=
  match requested with
  | .tInt => some (.int result)
  | .tBool => some (.bool (result ≠ 0))
  | .tStr => (utf8_to_string mem result.toNat).map PyVal.str

/-! ### `Session._ccall` argument marshaling (cdm.py lines 242–267)

The guest exports (`stackSave`, `stackAlloc`, `stackRestore` and the called
function) are opaque guest code; they are parameters of the embedding.  Guest
state is a pair of the linear memory (which the host writes into when
marshaling) and an opaque component `γ`.  The embedding additionally records
the interaction as an event trace so that claims about *which* guest calls
the host makes can be stated. -/

structure CcallSt (γ : Type) where
  mem : List Nat
  guest : γ

structure GuestApi (γ : Type) where
  stackSave : CcallSt γ → Int × CcallSt γ
  stackAlloc : CcallSt γ → Nat → Int × CcallSt γ
  stackRestore : CcallSt γ → Int → CcallSt γ
  call : CcallSt γ → List Int → Int × CcallSt γ

inductive CcallEvent
  | save (sp : Int)
  | alloc (size : Nat) (ptr : Int)
  | write (addr : Nat) (bytes : List Nat)
  | callGuest (args : List Int)
  | restore (sp : Int)
deriving DecidableEq

/-- Arguments accepted by `_ccall` (`str`, `list`, or scalars). -/
inductive PyArg
  | int (n : Int)
  | str (s : List Char)
  | list (l : List Nat)
deriving DecidableEq

/-- Reference-type arguments are those marshaled through guest stack memory. -/
def PyArg.isRef : PyArg → Bool
  | .int _ => false
  | .str _ => true
  | .list _ => true

def writeBytes (mem : List Nat) (ptr : Nat) : List Nat → List Nat
  | [] => mem
  | b :: rest => writeBytes (mem.set ptr b) (ptr + 1) rest

/-- The bytes `Session._string_to_utf8` stores for string `s` into a scratch
region of size `maxLength`: the UTF-8 encoding truncated to
`maxLength - 1` bytes, then a NUL terminator. -/
def utf8Payload (s : List Char) (maxLength : Nat) : List Nat :=
  (utf8Encode s).take (min (utf8Encode s).length (maxLength - 1)) ++ [0]

/-- `Session._string_to_utf8` (cdm.py lines 291–305). -/
def string_to_utf8 (mem : List Nat) (s : List Char) (ptr maxLength : Nat) :
    List Nat × Nat :=
  let encoded := utf8Encode s
  let writeLength := min encoded.length (maxLength - 1)
  ((writeBytes mem ptr (encoded.take writeLength)).set (ptr + writeLength) 0,
    writeLength)

/-- `Session._write_array_to_memory` (cdm.py lines 307–316). -/
def write_array_to_memory (mem : List Nat) (arr : List Nat) (ptr : Nat) :
    List Nat :=
  writeBytes mem ptr arr

/-- The argument-conversion loop of `_ccall`: `stack` starts at `0`; the
first reference-type argument seen while `stack == 0` snapshots the stack
pointer; strings get `(len << 2) + 1` scratch bytes, byte lists exactly their
length.  Returns the converted argument vector, the final `stack` value, the
final state and the event trace. -/
def convertArgs (api : GuestApi γ) :
    List PyArg → Int → CcallSt γ → List Int × Int × CcallSt γ × List CcallEvent
  | [], stack, st => ([], stack, st, [])
  | .int n :: rest, stack, st =>
    let r := convertArgs api rest stack st
    (n :: r.1, r.2.1, r.2.2.1, r.2.2.2)
  | .str s :: rest, stack, st =>
    let stack1 := if stack = 0 then (api.stackSave st).1 else stack
    let st1 := if stack = 0 then (api.stackSave st).2 else st
    let evs1 := if stack = 0 then [CcallEvent.save (api.stackSave st).1] else []
    let maxLength := (s.length <<< 2) + 1
    let ptr := (api.stackAlloc st1 maxLength).1
    let st2 := (api.stackAlloc st1 maxLength).2
    let st3 : CcallSt γ :=
      ⟨(string_to_utf8 st2.mem s ptr.toNat maxLength).1, st2.guest⟩
    let r := convertArgs api rest stack1 st3
    (ptr :: r.1, r.2.1, r.2.2.1,
      evs1 ++ CcallEvent.alloc maxLength ptr ::
        CcallEvent.write ptr.toNat (utf8Payload s maxLength) :: r.2.2.2)
  | .list l :: rest, stack, st =>
    let stack1 := if stack = 0 then (api.stackSave st).1 else stack
    let st1 := if stack = 0 then (api.stackSave st).2 else st
    let evs1 := if stack = 0 then [CcallEvent.save (api.stackSave st).1] else []
    let ptr := (api.stackAlloc st1 l.length).1
    let st2 := (api.stackAlloc st1 l.length).2
    let st3 : CcallSt γ :=
      ⟨write_array_to_memory st2.mem l ptr.toNat, st2.guest⟩
    let r := convertArgs api rest stack1 st3
    (ptr :: r.1, r.2.1, r.2.2.1,
      evs1 ++ CcallEvent.alloc l.length ptr ::
        CcallEvent.write ptr.toNat l :: r.2.2.2)

/-- `Session._ccall` up to (and excluding) return-value interpretation:
convert arguments, invoke the guest export, restore the stack pointer when a
snapshot was taken.  Returns the raw result, the final state and the event
trace. -/
def ccall (api : GuestApi γ) (st : CcallSt γ) (args : List PyArg) :
    Int × CcallSt γ × List CcallEvent :=
  let r := convertArgs api args 0 st
  let conv := r.1
  let stack := r.2.1
  let c := api.call r.2.2.1 conv
  if stack ≠ 0 then
    (c.1, api.stackRestore c.2 stack,
      r.2.2.2 ++ [CcallEvent.callGuest conv, CcallEvent.restore stack])
  else (c.1, c.2, r.2.2.2 ++ [CcallEvent.callGuest conv])

/-! ### Host import `emscripten_memcpy_big` (cdm.py lines 405–421)

The Python loop runs `i = 0, 1, …, num-1` in order, writing into the same
buffer it reads from, and skips any `i` where either index is out of
bounds. -/

def memcpyGo (mem : List Nat) (dest src i : Nat) : Nat → List Nat
  | 0 => mem
  | k + 1 =>
    let mem' :=
      if dest + i < mem.length ∧ src + i < mem.length then
        mem.set (dest + i) (mem.getD (src + i) 0)
      else mem
    memcpyGo mem' dest src (i + 1) k

/-- `emscripten_memcpy_big`; `num = none` models the (unreachable through
wasmtime) `num is None` branch.  Returns `dest` and the updated memory. -/
def emscripten_memcpy_big (mem : List Nat) (dest src : Nat)
    (num : Option Nat) : Int × List Nat :=
  let n := match num with
    | none => mem.length - 1
    | some n => n
  (Int.ofNat dest, memcpyGo mem dest src 0 n)

/-! ### `pymonalisa/cdm.py` — class `CDM` (session registry) -/

structure CDMSt where
  sessions : List (String × SessionSt)
deriving DecidableEq

/-- `CDM._get_session` (cdm.py lines 99–103). -/
def CDM.getSession (cdm : CDMSt) (session_id : String) :
    Except PyErr SessionSt :=
  match cdm.sessions.lookup session_id with
  | none => .error (.sessionError
      (("Session not found: " ++ session_id).toList))
  | some s => .ok s

/-- `Session.cleanup` (cdm.py lines 214–220) restricted to the observed
fields. -/
def SessionSt.cleanup (_ : SessionSt) : SessionSt := ⟨[]⟩

/-- `CDM.close` (cdm.py lines 54–63): clean up and deregister when the
identifier is known, otherwise do nothing. -/
def CDM.close (cdm : CDMSt) (session_id : String) : CDMSt :=
  if (cdm.sessions.lookup session_id).isSome then
    ⟨cdm.sessions.filter fun p => p.1 ≠ session_id⟩
  else cdm

/-- `Session.get_keys` (cdm.py lines 208–212): Python's `if key_type:` is
truthiness — `None` is falsy, every `KeyType` member truthy. -/
def Session.get_keys (keys : List Key) (key_type : Option KeyType) :
    List Key :=
  match key_type with
  | some t => keys.filter fun k => k.type == t
  | none => keys

/-- `Session.get_keys()` with the argument defaulted (`key_type=None`). -/
def Session.get_keys_default (keys : List Key) : List Key :=
  Session.get_keys keys none

/-- `CDM.get_keys` (cdm.py lines 83–97): delegates to the session. -/
def CDM.get_keys (keys : List Key) (key_type : Option KeyType) : List Key :=
  Session.get_keys keys key_type

/-- `CDM.get_keys()` with the argument defaulted
(`key_type=KeyType.CONTENT`). -/
def CDM.get_keys_default (keys : List Key) : List Key :=
  Session.get_keys keys (some .CONTENT)

/-! ## Helper lemmas -/

lemma b64val_b64char {n : Nat} (h : n < 64) : b64val (b64char n) = some n := by
  have H : ∀ m : Fin 64, b64val (b64char m.val) = some m.val := by decide
  exact H ⟨n, h⟩

lemma b64char_ne_pad {n : Nat} (h : n < 64) : b64char n ≠ '=' := by
  have H : ∀ m : Fin 64, b64char m.val ≠ '=' := by decide
  exact H ⟨n, h⟩

lemma a2b_step_data {c : Char} {d : Nat} (hne : c ≠ '=')
    (hv : b64val c = some d) (rest : List Char) (leftchar pads : Nat)
    (acc : List Nat) :
    (a2bBase64 (c :: rest) 0 leftchar pads acc = a2bBase64 rest 1 d 0 acc) ∧
    (a2bBase64 (c :: rest) 1 leftchar pads acc =
      a2bBase64 rest 2 (d % 16) 0 ((leftchar * 4 + d / 16) :: acc)) ∧
    (a2bBase64 (c :: rest) 2 leftchar pads acc =
      a2bBase64 rest 3 (d % 4) 0 ((leftchar * 16 + d / 4) :: acc)) ∧
    (a2bBase64 (c :: rest) 3 leftchar pads acc =
      a2bBase64 rest 0 0 0 ((leftchar * 64 + d) :: acc)) := by
  refine ⟨?_, ?_, ?_, ?_⟩ <;> simp [a2bBase64, hne, hv]

lemma a2b_step_pad_cont {quadPos pads : Nat}
    (h : ¬(2 ≤ quadPos ∧ 4 ≤ quadPos + (pads + 1))) (rest : List Char)
    (leftchar : Nat) (acc : List Nat) :
    a2bBase64 ('=' :: rest) quadPos leftchar pads acc =
      a2bBase64 rest quadPos leftchar (pads + 1) acc := by
  simp [a2bBase64, h]

lemma a2b_step_pad_done {quadPos pads : Nat}
    (h : 2 ≤ quadPos ∧ 4 ≤ quadPos + (pads + 1)) (rest : List Char)
    (leftchar : Nat) (acc : List Nat) :
    a2bBase64 ('=' :: rest) quadPos leftchar pads acc = some acc.reverse := by
  simp [a2bBase64, h]

lemma a2b_encode (l : List Nat) (h : ∀ b ∈ l, b < 256) (acc : List Nat) :
    a2bBase64 (b64encodeList l) 0 0 0 acc = some (acc.reverse ++ l) := by
  induction l using b64encodeList.induct generalizing acc with
  | case1 => simp [b64encodeList, a2bBase64]
  | case2 a =>
    have ha : a < 256 := h a (by simp)
    have h1 : a % 256 = a := Nat.mod_eq_of_lt ha
    simp only [b64encodeList, h1]
    rw [(a2b_step_data (b64char_ne_pad (by omega)) (b64val_b64char (by omega))
      _ _ _ _).1]
    rw [(a2b_step_data (b64char_ne_pad (by omega)) (b64val_b64char (by omega))
      _ _ _ _).2.1]
    rw [a2b_step_pad_cont (by omega)]
    rw [a2b_step_pad_done (by omega)]
    have e1 : a / 4 * 4 + a % 4 * 16 / 16 = a := by omega
    rw [e1]
    simp
  | case3 a b =>
    have ha : a < 256 := h a (by simp)
    have hb : b < 256 := h b (by simp)
    have h1 : a % 256 = a := Nat.mod_eq_of_lt ha
    have h2 : b % 256 = b := Nat.mod_eq_of_lt hb
    simp only [b64encodeList, h1, h2]
    rw [(a2b_step_data (b64char_ne_pad (by omega)) (b64val_b64char (by omega))
      _ _ _ _).1]
    rw [(a2b_step_data (b64char_ne_pad (by omega)) (b64val_b64char (by omega))
      _ _ _ _).2.1]
    rw [(a2b_step_data (b64char_ne_pad (by omega)) (b64val_b64char (by omega))
      _ _ _ _).2.2.1]
    rw [a2b_step_pad_done (by omega)]
    have e1 : a / 4 * 4 + (a % 4 * 16 + b / 16) / 16 = a := by omega
    have e2 : (a % 4 * 16 + b / 16) % 16 * 16 + b % 16 * 4 / 4 = b := by omega
    rw [e1, e2]
    simp
  | case4 a b c rest ih =>
    have ha : a < 256 := h a (by simp)
    have hb : b < 256 := h b (by simp)
    have hc : c < 256 := h c (by simp)
    have h1 : a % 256 = a := Nat.mod_eq_of_lt ha
    have h2 : b % 256 = b := Nat.mod_eq_of_lt hb
    have h3 : c % 256 = c := Nat.mod_eq_of_lt hc
    simp only [b64encodeList, h1, h2, h3]
    rw [(a2b_step_data (b64char_ne_pad (by omega)) (b64val_b64char (by omega))
      _ _ _ _).1]
    rw [(a2b_step_data (b64char_ne_pad (by omega)) (b64val_b64char (by omega))
      _ _ _ _).2.1]
    rw [(a2b_step_data (b64char_ne_pad (by omega)) (b64val_b64char (by omega))
      _ _ _ _).2.2.1]
    rw [(a2b_step_data (b64char_ne_pad (by omega)) (b64val_b64char (by omega))
      _ _ _ _).2.2.2]
    rw [ih (fun x hx => h x (by simp [hx]))]
    have e1 : a / 4 * 4 + (a % 4 * 16 + b / 16) / 16 = a := by omega
    have e2 : (a % 4 * 16 + b / 16) % 16 * 16 +
        (b % 16 * 4 + c / 64) / 4 = b := by omega
    have e3 : (b % 16 * 4 + c / 64) % 4 * 64 + c % 64 = c := by omega
    rw [e1, e2, e3]
    simp

/-- Decoding a canonically encoded byte list recovers it exactly. -/
lemma b64decode_encode (l : List Nat) (h : ∀ b ∈ l, b < 256) :
    b64decodePy (b64encodeList l) = some l := by
  simpa [b64decodePy] using a2b_encode l h []

lemma char_toNat_lt (c : Char) : c.toNat < 1114112 := by
  have h := c.valid
  unfold UInt32.isValidChar Nat.isValidChar at h
  rcases h with h | ⟨h1, h2⟩ <;> simp [Char.toNat] <;> omega

lemma utf8EncodeChar_lt (c : Char) : ∀ b ∈ utf8EncodeChar c, b < 256 := by
  have hc := char_toNat_lt c
  intro b hb
  simp only [utf8EncodeChar] at hb
  split_ifs at hb <;> simp at hb <;> omega

lemma utf8Encode_lt (s : List Char) : ∀ b ∈ utf8Encode s, b < 256 := by
  intro b hb
  simp only [utf8Encode, List.mem_flatten, List.mem_map] at hb
  obtain ⟨l, ⟨c, _, rfl⟩, hbl⟩ := hb
  exact utf8EncodeChar_lt c b hbl

lemma utf8EncodeChar_length_le (c : Char) : (utf8EncodeChar c).length ≤ 4 := by
  simp only [utf8EncodeChar]
  split_ifs <;> simp

lemma utf8Encode_length_le (s : List Char) :
    (utf8Encode s).length ≤ 4 * s.length := by
  induction s with
  | nil => simp [utf8Encode]
  | cons c cs ih =>
    have := utf8EncodeChar_length_le c
    simp only [utf8Encode, List.map_cons, List.flatten_cons,
      List.length_append, List.length_cons] at *
    omega

/-! ## Claim theorems -/

/-- C8: constructing a `License` from a byte buffer `B` leaves the raw bytes
unchanged (`License(B).raw == B`), with the `b64` property holding the base64
encoding of `B` (which decodes back to exactly `B`). -/
theorem C8_license_from_bytes (B : List Nat) (hB : ∀ b ∈ B, b < 256) :
    (License.init (.bytes B)).raw = B ∧
    (License.init (.bytes B)).b64 = b64encodeList B ∧
    b64decodePy ((License.init (.bytes B)).b64) = some B := by
  refine ⟨rfl, rfl, ?_⟩
  simpa [License.init, License.b64] using b64decode_encode B hB

theorem C8_witness :
    (License.init (.bytes [104, 200, 0])).raw = [104, 200, 0] ∧
    (License.init (.bytes [104, 200, 0])).b64 = b64encodeList [104, 200, 0] ∧
    b64decodePy ((License.init (.bytes [104, 200, 0])).b64) =
      some [104, 200, 0] :=
  C8_license_from_bytes [104, 200, 0] (by decide)

/-- C4 as stated is false: the string "AB==" is accepted by base64 decoding
(yielding the single byte 0) but is not the canonical encoding of that byte,
so `License(base64-decode("AB==")).b64 = "AA=="` while
`License("AB==").b64 = "AB=="`. -/
theorem C4_counterexample :
    b64decodePy ['A', 'B', '=', '='] = some [0] ∧
    (License.init (.str ['A', 'B', '=', '='])).b64 = ['A', 'B', '=', '='] ∧
    (License.init (.bytes [0])).b64 = ['A', 'A', '=', '='] ∧
    (License.init (.bytes [0])).b64 ≠
      (License.init (.str ['A', 'B', '=', '='])).b64 := by decide

/-- C4 amended: restricted to canonical base64 strings — those in the image
of the encoder — constructing a `License` from the decoded bytes yields the
same `b64` string as constructing one from the string directly. -/
theorem C4_roundtrip_canonical (B : List Nat) (hB : ∀ b ∈ B, b < 256) :
    (License.init (.str (b64encodeList B))).b64 = b64encodeList B ∧
    b64decodePy (b64encodeList B) = some B ∧
    (License.init (.bytes ((b64decodePy (b64encodeList B)).getD []))).b64 =
      (License.init (.str (b64encodeList B))).b64 := by
  have hd := b64decode_encode B hB
  refine ⟨?_, hd, ?_⟩ <;> simp [License.init, License.b64, hd]

theorem C4_witness :
    (License.init (.str (b64encodeList [77, 97, 110]))).b64 =
      b64encodeList [77, 97, 110] ∧
    b64decodePy (b64encodeList [77, 97, 110]) = some [77, 97, 110] ∧
    (License.init
        (.bytes ((b64decodePy (b64encodeList [77, 97, 110])).getD []))).b64 =
      (License.init (.str (b64encodeList [77, 97, 110]))).b64 :=
  C4_roundtrip_canonical [77, 97, 110] (by decide)

/-- C5: `License.init` is a total function of its input (never fails, same
input same output); the stored encoded form always decodes back to the
stored raw bytes, and a string input that fails base64 decoding falls back
to being treated as raw UTF-8 text re-encoded to a canonical base64
string. -/
theorem C5_normalize_total (d : PyData)
    (hd : ∀ B, d = .bytes B → ∀ b ∈ B, b < 256) :
    b64decodePy (License.init d).b64 = some (License.init d).raw ∧
    ∀ s, d = .str s → b64decodePy s = none →
      (License.init d).raw = utf8Encode s ∧
      (License.init d).b64 = b64encodeList (utf8Encode s) := by
  cases d with
  | str s =>
    cases hdec : b64decodePy s with
    | some r =>
      constructor
      · simp [License.init, hdec, License.b64, License.raw]
      · intro s' hs' hnone
        injection hs' with h
        subst h
        rw [hdec] at hnone
        cases hnone
    | none =>
      constructor
      · simp only [License.init, hdec, License.b64, License.raw]
        exact b64decode_encode _ (utf8Encode_lt s)
      · intro s' hs' _
        injection hs' with h
        subst h
        simp [License.init, hdec, License.raw, License.b64]
  | bytes B =>
    constructor
    · simp only [License.init, License.b64, License.raw]
      exact b64decode_encode B (hd B rfl)
    · intro s hs
      cases hs

theorem C5_witness :
    b64decodePy (License.init (.str "hello".toList)).b64 =
      some (License.init (.str "hello".toList)).raw ∧
    ∀ s, PyData.str "hello".toList = .str s → b64decodePy s = none →
      (License.init (.str "hello".toList)).raw = utf8Encode s ∧
      (License.init (.str "hello".toList)).b64 =
        b64encodeList (utf8Encode s) :=
  C5_normalize_total (.str "hello".toList) (fun _ h => nomatch h)

/-- C9: an identifier not in the registry makes `_get_session` raise
`MonalisaSessionError` with a message naming the identifier, while `close`
with that identifier is a no-op that leaves the registry (hence every other
session) unchanged. -/
theorem C9_unknown_session (cdm : CDMSt) (sid : String)
    (h : cdm.sessions.lookup sid = none) :
    CDM.getSession cdm sid =
      .error (.sessionError (("Session not found: " ++ sid).toList)) ∧
    CDM.close cdm sid = cdm := by
  constructor
  · simp [CDM.getSession, h]
  · simp [CDM.close, h]

theorem C9_witness :
    CDM.getSession ⟨[("a", ⟨[]⟩)]⟩ "b" =
      .error (.sessionError (("Session not found: " ++ "b").toList)) ∧
    CDM.close ⟨[("a", ⟨[]⟩)]⟩ "b" = ⟨[("a", ⟨[]⟩)]⟩ :=
  C9_unknown_session ⟨[("a", ⟨[]⟩)]⟩ "b" (by decide)

def demoContentKey : Key :=
  ⟨List.replicate 16 0, List.replicate 16 1, .CONTENT, none⟩

def demoSigningKey : Key :=
  ⟨List.replicate 16 2, List.replicate 16 3, .SIGNING, none⟩

/-- C10: the registry-level `get_keys` defaults its filter to
`KeyType.CONTENT` (returning exactly the CONTENT keys), the session-level
`get_keys` defaults to no filter (returning all keys), and passing `None`
through the registry returns all keys; on a mixed key list the two defaults
disagree. -/
theorem C10_default_filters :
    (∀ keys : List Key, ∀ k, k ∈ CDM.get_keys_default keys ↔
      k ∈ keys ∧ k.type = .CONTENT) ∧
    (∀ keys : List Key, Session.get_keys_default keys = keys) ∧
    (∀ keys : List Key, CDM.get_keys keys none = keys) ∧
    CDM.get_keys_default [demoContentKey, demoSigningKey] =
      [demoContentKey] ∧
    Session.get_keys_default [demoContentKey, demoSigningKey] =
      [demoContentKey, demoSigningKey] := by
  refine ⟨?_, fun _ => rfl, fun _ => rfl, by decide, rfl⟩
  intro keys k
  simp only [CDM.get_keys_default, Session.get_keys, List.mem_filter,
    beq_iff_eq]

theorem C10_witness :
    (demoSigningKey ∈
        CDM.get_keys_default [demoContentKey, demoSigningKey] ↔
      demoSigningKey ∈ [demoContentKey, demoSigningKey] ∧
        demoSigningKey.type = .CONTENT) ∧
    Session.get_keys_default [demoContentKey, demoSigningKey] =
      [demoContentKey, demoSigningKey] :=
  ⟨C10_default_filters.1 [demoContentKey, demoSigningKey] demoSigningKey,
   C10_default_filters.2.1 [demoContentKey, demoSigningKey]⟩

/-- C2 is contradicted by the code: `_ccall` tests
`isinstance(return_type, str)` / `isinstance(return_type, bool)` on the
value passed as `return_type`, and the callers pass *type objects* (such as
`str` itself), for which both tests are `False`; so a caller requesting a
string or boolean result still receives the raw integer unchanged, against
the claimed string-read/boolean-coercion (shown here side by side with the
interpretation the specification describes).  Integer passthrough does
behave as claimed. -/
theorem C2_codebug_interpretation :
    ccallInterpretResult (.type .tStr) [0, 65, 0] 1 = some (.int 1) ∧
    ccallInterpretResultSpec .tStr [0, 65, 0] 1 = some (.str ['A']) ∧
    ccallInterpretResult (.type .tBool) [] 5 = some (.int 5) ∧
    ccallInterpretResultSpec .tBool [] 5 = some (.bool true) ∧
    ccallInterpretResult (.type .tInt) [] 7 = some (.int 7) ∧
    ccallInterpretResultSpec .tInt [] 7 = some (.int 7) := by decide

/-- C1: a non-zero return code from the license-setter guest call makes
`parse_license` produce a `MonalisaLicenseError` with the session state (in
particular the key list) untouched; more generally every error outcome of
the parse/extract sequence is a `MonalisaLicenseError` and leaves the key
list unchanged. -/
theorem C1_parse_license_errors (callResult : Except PyErr (Int × List Nat))
    (st : SessionSt) (lic : License) :
    (∀ ret mem, callResult = .ok (ret, mem) → ret ≠ 0 →
      ∃ msg, parse_license callResult st lic =
        (.error (.licenseError msg), st)) ∧
    (∀ e st', parse_license callResult st lic = (.error e, st') →
      e.isLicenseError = true ∧ st'.keys = st.keys) := by
  constructor
  · rintro ret mem rfl hret
    refine ⟨"Failed to parse license: ".toList ++
      ("License validation failed with code: ".toList ++
        (toString ret).toList), ?_⟩
    simp [parse_license, hret, wrapParseErr, PyErr.message]
  · intro e st' hp
    cases callResult with
    | error e0 =>
      simp only [parse_license, Prod.mk.injEq, Except.error.injEq] at hp
      obtain ⟨rfl, rfl⟩ := hp
      exact ⟨rfl, rfl⟩
    | ok p =>
      obtain ⟨ret, mem⟩ := p
      simp only [parse_license] at hp
      split at hp
      · simp only [Prod.mk.injEq, Except.error.injEq] at hp
        obtain ⟨rfl, rfl⟩ := hp
        exact ⟨rfl, rfl⟩
      · split at hp
        · simp only [Prod.mk.injEq, Except.error.injEq] at hp
          obtain ⟨rfl, rfl⟩ := hp
          exact ⟨rfl, rfl⟩
        · split at hp
          · simp only [Prod.mk.injEq, Except.error.injEq] at hp
            obtain ⟨rfl, rfl⟩ := hp
            exact ⟨rfl, rfl⟩
          · split at hp
            · simp only [Prod.mk.injEq, Except.error.injEq] at hp
              obtain ⟨rfl, rfl⟩ := hp
              exact ⟨rfl, rfl⟩
            · simp at hp

theorem C1_witness :
    ∃ msg, parse_license (.ok (5, [])) ⟨[]⟩ (License.init (.bytes [])) =
      (.error (.licenseError msg), ⟨[]⟩) :=
  (C1_parse_license_errors (.ok (5, [])) ⟨[]⟩
    (License.init (.bytes []))).1 5 [] rfl (by decide)

lemma getD_set_eq {l : List Nat} {p : Nat} (v : Nat) (h : p < l.length) :
    (l.set p v).getD p 0 = v := by
  simp [List.getD_eq_getElem?_getD, List.getElem?_set_self h]

lemma getD_set_ne {l : List Nat} {p j : Nat} (v : Nat) (h : p ≠ j) :
    (l.set p v).getD j 0 = l.getD j 0 := by
  simp [List.getD_eq_getElem?_getD, List.getElem?_set_ne h]

lemma sha1_length (msg : List Nat) : (sha1 msg).length = 20 := by
  unfold sha1
  rcases hf : (toBlocks (sha1Pad msg)).foldl sha1Block
      (1732584193, 4023233417, 2562383102, 271733878, 3285377520) with
    ⟨h0, h1, h2, h3, h4⟩
  simp [word32Bytes]

lemma uuid5Bytes_length (ns : List Nat) (name : List Char) :
    (uuid5Bytes ns name).length = 16 := by
  simp [uuid5Bytes, List.length_set, List.length_take, sha1_length]

lemma lor80_div16 (x : Nat) : (x &&& 15 ||| 80) / 16 = 5 := by
  have h : x &&& 15 < 16 := Nat.lt_succ_of_le Nat.and_le_right
  have H : ∀ a : Fin 16, a.val ||| 80 = 80 + a.val ∧ (a.val ||| 80) / 16 = 5 := by
    decide
  exact (H ⟨x &&& 15, h⟩).2

/-- The version nibble of a name-based UUID derived here is always 5. -/
lemma uuid5Bytes_version (ns : List Nat) (name : List Char) :
    (uuid5Bytes ns name).getD 6 0 / 16 = 5 := by
  simp only [uuid5Bytes]
  have hb : ((sha1 (ns ++ utf8Encode name)).take 16).length = 16 := by
    simp [sha1_length]
  rw [List.getD_eq_getElem?_getD,
    List.getElem?_set_ne (show (8 : Nat) ≠ 6 by omega),
    List.getElem?_set_self (by omega)]
  simp [lor80_div16]

/-- C3: the derived key identifier is a deterministic function of the decoded
ticket text: a text whose leftmost correlation-pattern match is `m` always
yields the version-5 name-based UUID over the DNS namespace with name `m`
(so identical matched substrings yield identical 16-byte identifiers), and a
text with no match yields the all-zero UUID. -/
theorem C3_kid_derivation :
    (∀ t, (deriveKid t).length = 16) ∧
    (∀ t m, reSearchDCID t = some m →
      deriveKid t = uuid5Bytes NAMESPACE_DNS m) ∧
    (∀ t1 t2 m, reSearchDCID t1 = some m → reSearchDCID t2 = some m →
      deriveKid t1 = deriveKid t2) ∧
    (∀ t, reSearchDCID t = none → deriveKid t = zeroUuidBytes) ∧
    (∀ t m, reSearchDCID t = some m → (deriveKid t).getD 6 0 / 16 = 5) := by
  have hx : ∀ t m, reSearchDCID t = some m →
      deriveKid t = uuid5Bytes NAMESPACE_DNS m := by
    intro t m h
    simp [deriveKid, h]
  refine ⟨?_, hx, ?_, ?_, ?_⟩
  · intro t
    unfold deriveKid
    cases reSearchDCID t <;> simp [uuid5Bytes_length, zeroUuidBytes]
  · intro t1 t2 m h1 h2
    rw [hx t1 m h1, hx t2 m h2]
  · intro t h
    simp [deriveKid, h]
  · intro t m h
    rw [hx t m h]
    exact uuid5Bytes_version _ _

theorem C3_witness :
    deriveKid "xDCID-A-B-12345678-123456-C-1234567890-Dx".toList =
      uuid5Bytes NAMESPACE_DNS
        "DCID-A-B-12345678-123456-C-1234567890-D".toList ∧
    deriveKid "no correlation identifier".toList = zeroUuidBytes :=
  ⟨(C3_kid_derivation).2.1 _ _ (by decide),
   (C3_kid_derivation).2.2.2.1 _ (by decide)⟩

lemma memcpyGo_length (k : Nat) :
    ∀ (mem : List Nat) (dest src i : Nat),
      (memcpyGo mem dest src i k).length = mem.length := by
  induction k with
  | zero => intro mem dest src i; rfl
  | succ n ih =>
    intro mem dest src i
    simp only [memcpyGo]
    rw [ih]
    split <;> simp [List.length_set]

lemma memcpyGo_frame (k : Nat) :
    ∀ (mem : List Nat) (dest src i j : Nat),
      j < dest + i ∨ dest + i + k ≤ j →
      (memcpyGo mem dest src i k).getD j 0 = mem.getD j 0 := by
  induction k with
  | zero => intro mem dest src i j _; rfl
  | succ n ih =>
    intro mem dest src i j hj
    simp only [memcpyGo]
    rw [ih _ dest src (i + 1) j (by omega)]
    split
    · exact getD_set_ne _ (by omega)
    · rfl

lemma memcpyGo_copy (k : Nat) :
    ∀ (mem : List Nat) (dest src i : Nat),
      dest + i + k ≤ mem.length → src + i + k ≤ mem.length →
      (dest + i + k ≤ src + i ∨ src + i + k ≤ dest + i) →
      ∀ t, t < k →
        (memcpyGo mem dest src i k).getD (dest + i + t) 0 =
          mem.getD (src + i + t) 0 := by
  induction k with
  | zero => intro mem dest src i _ _ _ t ht; omega
  | succ n ih =>
    intro mem dest src i hd hs hdisj t ht
    simp only [memcpyGo]
    rw [if_pos (by omega : dest + i < mem.length ∧ src + i < mem.length)]
    rcases Nat.eq_zero_or_pos t with rfl | htpos
    · rw [memcpyGo_frame n _ dest src (i + 1) _ (by omega)]
      simp only [Nat.add_zero]
      rw [getD_set_eq _ (by omega)]
    · obtain ⟨t', rfl⟩ : ∃ t', t = t' + 1 := ⟨t - 1, by omega⟩
      have hlen : (mem.set (dest + i) (mem.getD (src + i) 0)).length =
          mem.length := by simp [List.length_set]
      have hrec := ih (mem.set (dest + i) (mem.getD (src + i) 0)) dest src
        (i + 1) (by omega) (by omega) (by omega) t' (by omega)
      rw [show dest + i + (t' + 1) = dest + (i + 1) + t' by omega, hrec,
        getD_set_ne _ (by omega),
        show src + (i + 1) + t' = src + i + (t' + 1) by omega]

lemma memcpyGo_skip (k : Nat) :
    ∀ (mem : List Nat) (dest src i t : Nat), t < k →
      (mem.length ≤ src + i + t ∨ mem.length ≤ dest + i + t) →
      (memcpyGo mem dest src i k).getD (dest + i + t) 0 =
        mem.getD (dest + i + t) 0 := by
  induction k with
  | zero => intro mem dest src i t ht _; omega
  | succ n ih =>
    intro mem dest src i t ht hoob
    simp only [memcpyGo]
    rcases Nat.eq_zero_or_pos t with rfl | htpos
    · rw [if_neg (by omega)]
      exact memcpyGo_frame n mem dest src (i + 1) _ (by omega)
    · obtain ⟨t', rfl⟩ : ∃ t', t = t' + 1 := ⟨t - 1, by omega⟩
      split
      · have hlen : (mem.set (dest + i) (mem.getD (src + i) 0)).length =
            mem.length := by simp [List.length_set]
        rw [show dest + i + (t' + 1) = dest + (i + 1) + t' by omega,
          ih _ dest src (i + 1) t' (by omega) (by omega)]
        rw [show dest + (i + 1) + t' = dest + i + (t' + 1) by omega,
          getD_set_ne _ (by omega)]
      · rw [show dest + i + (t' + 1) = dest + (i + 1) + t' by omega,
          ih _ dest src (i + 1) t' (by omega) (by omega)]

/-- C6: the bulk-memory-copy host import returns `dest`, preserves the memory
length, leaves every position outside the destination window unchanged,
copies byte `i` of the source to byte `i` of the destination for
non-overlapping in-bounds regions, and skips (leaves unchanged) any
destination position whose source or destination index falls at or beyond
the memory length. -/
theorem C6_memcpy_big :
    (∀ (mem : List Nat) (dest src n : Nat),
      (emscripten_memcpy_big mem dest src (some n)).1 = Int.ofNat dest) ∧
    (∀ (mem : List Nat) (dest src n : Nat),
      (emscripten_memcpy_big mem dest src (some n)).2.length = mem.length) ∧
    (∀ (mem : List Nat) (dest src n j : Nat), j < dest ∨ dest + n ≤ j →
      (emscripten_memcpy_big mem dest src (some n)).2.getD j 0 =
        mem.getD j 0) ∧
    (∀ (mem : List Nat) (dest src n : Nat),
      dest + n ≤ mem.length → src + n ≤ mem.length →
      dest + n ≤ src ∨ src + n ≤ dest →
      ∀ i, i < n →
        (emscripten_memcpy_big mem dest src (some n)).2.getD (dest + i) 0 =
          mem.getD (src + i) 0) ∧
    (∀ (mem : List Nat) (dest src n i : Nat), i < n →
      mem.length ≤ src + i ∨ mem.length ≤ dest + i →
      (emscripten_memcpy_big mem dest src (some n)).2.getD (dest + i) 0 =
        mem.getD (dest + i) 0) := by
  refine ⟨fun _ _ _ _ => rfl, fun mem dest src n => memcpyGo_length n mem dest src 0,
    ?_, ?_, ?_⟩
  · intro mem dest src n j hj
    exact memcpyGo_frame n mem dest src 0 j (by omega)
  · intro mem dest src n hd hs hdisj i hi
    have := memcpyGo_copy n mem dest src 0 (by omega) (by omega) (by omega)
      i hi
    simpa using this
  · intro mem dest src n i hi hoob
    have := memcpyGo_skip n mem dest src 0 i hi (by omega)
    simpa using this

theorem C6_witness :
    (emscripten_memcpy_big [10, 20, 30, 40, 50, 60] 0 3 (some 2)).1 =
      Int.ofNat 0 ∧
    (emscripten_memcpy_big [10, 20, 30, 40, 50, 60] 0 3 (some 2)).2.getD
      (0 + 0) 0 = [10, 20, 30, 40, 50, 60].getD (3 + 0) 0 ∧
    (emscripten_memcpy_big [10, 20, 30, 40, 50, 60] 4 5 (some 3)).2.getD
      (4 + 1) 0 = [10, 20, 30, 40, 50, 60].getD (4 + 1) 0 :=
  ⟨C6_memcpy_big.1 [10, 20, 30, 40, 50, 60] 0 3 2,
   C6_memcpy_big.2.2.2.1 [10, 20, 30, 40, 50, 60] 0 3 2 (by decide)
     (by decide) (by decide) 0 (by decide),
   C6_memcpy_big.2.2.2.2 [10, 20, 30, 40, 50, 60] 4 5 3 1 (by decide)
     (by decide)⟩

def CcallEvent.isSave : CcallEvent → Bool
  | .save _ => true
  | _ => false

lemma convertArgs_conv_length {γ : Type} (api : GuestApi γ) :
    ∀ (args : List PyArg) (stack : Int) (st : CcallSt γ),
      (convertArgs api args stack st).1.length = args.length := by
  intro args
  induction args with
  | nil => intro stack st; rfl
  | cons a rest ih =>
    intro stack st
    cases a <;> simp [convertArgs, ih]

lemma convertArgs_stack_ne {γ : Type} (api : GuestApi γ) :
    ∀ (args : List PyArg) (stack : Int) (st : CcallSt γ), stack ≠ 0 →
      (convertArgs api args stack st).2.1 = stack ∧
      (convertArgs api args stack st).2.2.2.filter CcallEvent.isSave = [] := by
  intro args
  induction args with
  | nil => intro stack st _; exact ⟨rfl, rfl⟩
  | cons a rest ih =>
    intro stack st h
    cases a with
    | int n => simpa [convertArgs] using ih stack st h
    | str s =>
      have hr := ih stack
        ⟨(string_to_utf8 (api.stackAlloc st ((s.length <<< 2) + 1)).2.mem s
            (api.stackAlloc st ((s.length <<< 2) + 1)).1.toNat
            ((s.length <<< 2) + 1)).1,
          (api.stackAlloc st ((s.length <<< 2) + 1)).2.guest⟩ h
      simp only [convertArgs, h, if_neg, ite_false]
      constructor
      · simpa [h] using hr.1
      · simpa [h, CcallEvent.isSave] using hr.2
    | list l =>
      have hr := ih stack
        ⟨write_array_to_memory (api.stackAlloc st l.length).2.mem l
            (api.stackAlloc st l.length).1.toNat,
          (api.stackAlloc st l.length).2.guest⟩ h
      simp only [convertArgs, h, if_neg, ite_false]
      constructor
      · simpa [h] using hr.1
      · simpa [h, CcallEvent.isSave] using hr.2

lemma convertArgs_from0 {γ : Type} (api : GuestApi γ)
    (hsave : ∀ st : CcallSt γ, (api.stackSave st).1 ≠ 0) :
    ∀ (args : List PyArg) (st : CcallSt γ),
      ((∀ a ∈ args, a.isRef = false) →
        (convertArgs api args 0 st).2.1 = 0 ∧
        (convertArgs api args 0 st).2.2.2 = []) ∧
      ((∃ a ∈ args, a.isRef = true) →
        ∃ sp, sp ≠ 0 ∧ (convertArgs api args 0 st).2.1 = sp ∧
          (convertArgs api args 0 st).2.2.2.filter CcallEvent.isSave =
            [CcallEvent.save sp]) := by
  intro args
  induction args with
  | nil =>
    intro st
    refine ⟨fun _ => ⟨rfl, rfl⟩, ?_⟩
    rintro ⟨a, ha, _⟩
    exact absurd ha (List.not_mem_nil a)
  | cons a rest ih =>
    intro st
    cases a with
    | int n =>
      constructor
      · intro h
        have hr := (ih st).1 (fun x hx => h x (List.mem_cons_of_mem _ hx))
        simpa [convertArgs] using hr
      · rintro ⟨x, hx, href⟩
        rcases List.mem_cons.mp hx with rfl | hx'
        · simp [PyArg.isRef] at href
        · have hr := (ih st).2 ⟨x, hx', href⟩
          simpa [convertArgs] using hr
    | str s =>
      constructor
      · intro h
        have := h (.str s) (List.mem_cons_self _ _)
        simp [PyArg.isRef] at this
      · intro _
        refine ⟨(api.stackSave st).1, hsave st, ?_, ?_⟩
        · simp [convertArgs]
          exact (convertArgs_stack_ne api rest _ _ (hsave st)).1
        · simp [convertArgs, CcallEvent.isSave,
            (convertArgs_stack_ne api rest _ _ (hsave st)).2]
    | list l =>
      constructor
      · intro h
        have := h (.list l) (List.mem_cons_self _ _)
        simp [PyArg.isRef] at this
      · intro _
        refine ⟨(api.stackSave st).1, hsave st, ?_, ?_⟩
        · simp [convertArgs]
          exact (convertArgs_stack_ne api rest _ _ (hsave st)).1
        · simp [convertArgs, CcallEvent.isSave,
            (convertArgs_stack_ne api rest _ _ (hsave st)).2]

lemma convertArgs_str_marshal {γ : Type} (api : GuestApi γ) :
    ∀ (args : List PyArg) (stack : Int) (st : CcallSt γ) (i : Nat)
      (s : List Char), args[i]? = some (.str s) →
      ∃ ptr, (convertArgs api args stack st).1[i]? = some ptr ∧
        CcallEvent.alloc ((s.length <<< 2) + 1) ptr ∈
          (convertArgs api args stack st).2.2.2 ∧
        CcallEvent.write ptr.toNat (utf8Payload s ((s.length <<< 2) + 1)) ∈
          (convertArgs api args stack st).2.2.2 := by
  intro args
  induction args with
  | nil => intro stack st i s h; simp at h
  | cons a rest ih =>
    intro stack st i s h
    cases i with
    | zero =>
      simp only [List.getElem?_cons_zero, Option.some.injEq] at h
      subst h
      refine ⟨(api.stackAlloc (if stack = 0 then (api.stackSave st).2 else st)
        ((s.length <<< 2) + 1)).1, ?_, ?_, ?_⟩
      · simp [convertArgs]
      · simp [convertArgs]
      · simp [convertArgs]
    | succ i' =>
      simp only [List.getElem?_cons_succ] at h
      cases a with
      | int n =>
        obtain ⟨ptr, h1, h2, h3⟩ := ih stack st i' s h
        exact ⟨ptr, by simpa [convertArgs] using h1,
          by simpa [convertArgs] using h2, by simpa [convertArgs] using h3⟩
      | str s2 =>
        simp only [convertArgs, List.getElem?_cons_succ]
        obtain ⟨ptr, h1, h2, h3⟩ := ih _ _ i' s h
        exact ⟨ptr, h1,
          List.mem_append_right _
            (List.mem_cons_of_mem _ (List.mem_cons_of_mem _ h2)),
          List.mem_append_right _
            (List.mem_cons_of_mem _ (List.mem_cons_of_mem _ h3))⟩
      | list l =>
        simp only [convertArgs, List.getElem?_cons_succ]
        obtain ⟨ptr, h1, h2, h3⟩ := ih _ _ i' s h
        exact ⟨ptr, h1,
          List.mem_append_right _
            (List.mem_cons_of_mem _ (List.mem_cons_of_mem _ h2)),
          List.mem_append_right _
            (List.mem_cons_of_mem _ (List.mem_cons_of_mem _ h3))⟩

lemma utf8Payload_no_trunc (s : List Char) :
    utf8Payload s (4 * s.length + 1) = utf8Encode s ++ [0] := by
  have h := utf8Encode_length_le s
  simp only [utf8Payload]
  rw [show 4 * s.length + 1 - 1 = 4 * s.length by omega,
    Nat.min_eq_left h, List.take_length]

lemma shiftLeft2_eq (L : Nat) : (L <<< 2) + 1 = 4 * L + 1 := by
  simp [Nat.shiftLeft_eq]
  omega

/-- C7: through `_ccall`, a stack-pointer snapshot (stack-save event) occurs
iff some reference-type (string or byte-list) argument is present, in which
case the trace ends with a stack-restore to exactly the snapshot value; each
string argument is marshaled by allocating exactly `4×(length in chars)+1`
scratch bytes, writing the UTF-8 encoding truncated to the scratch region
followed by a NUL terminator (no truncation actually occurs at this size),
and passing the scratch address in the argument's position of the converted
argument vector handed to the guest. -/
theorem C7_ccall_marshaling {γ : Type} (api : GuestApi γ)
    (hsave : ∀ st : CcallSt γ, (api.stackSave st).1 ≠ 0)
    (st : CcallSt γ) (args : List PyArg) :
    ((∃ sp, CcallEvent.save sp ∈ (ccall api st args).2.2) ↔
      ∃ a ∈ args, a.isRef = true) ∧
    (∀ sp, CcallEvent.save sp ∈ (ccall api st args).2.2 →
      ((ccall api st args).2.2).getLast? = some (CcallEvent.restore sp)) ∧
    (∃ conv : List Int, CcallEvent.callGuest conv ∈ (ccall api st args).2.2 ∧
      conv.length = args.length ∧
      ∀ (i : Nat) (s : List Char), args[i]? = some (PyArg.str s) →
        ∃ ptr : Int, conv[i]? = some ptr ∧
          CcallEvent.alloc (4 * s.length + 1) ptr ∈
            (ccall api st args).2.2 ∧
          CcallEvent.write ptr.toNat (utf8Payload s (4 * s.length + 1)) ∈
            (ccall api st args).2.2) ∧
    (∀ s : List Char,
      utf8Payload s (4 * s.length + 1) = utf8Encode s ++ [0]) := by
  by_cases href : ∃ a ∈ args, a.isRef = true
  · obtain ⟨sp, hsp0, hstack, hfilter⟩ :=
      (convertArgs_from0 api hsave args st).2 href
    have hevs : (ccall api st args).2.2 =
        (convertArgs api args 0 st).2.2.2 ++
          [CcallEvent.callGuest (convertArgs api args 0 st).1,
           CcallEvent.restore sp] := by
      simp [ccall, hstack, hsp0]
    have hsp_mem : CcallEvent.save sp ∈ (convertArgs api args 0 st).2.2.2 := by
      have hm : CcallEvent.save sp ∈
          (convertArgs api args 0 st).2.2.2.filter CcallEvent.isSave := by
        rw [hfilter]
        exact List.mem_singleton.mpr rfl
      exact (List.mem_filter.mp hm).1
    refine ⟨⟨fun _ => href, fun _ => ⟨sp, by
      rw [hevs]; exact List.mem_append_left _ hsp_mem⟩⟩, ?_, ?_, utf8Payload_no_trunc⟩
    · intro sp' hmem
      rw [hevs] at hmem ⊢
      have hsp' : sp' = sp := by
        rcases List.mem_append.mp hmem with hin | hin
        · have : CcallEvent.save sp' ∈
              (convertArgs api args 0 st).2.2.2.filter CcallEvent.isSave :=
            List.mem_filter.mpr ⟨hin, rfl⟩
          rw [hfilter] at this
          exact CcallEvent.save.inj (List.mem_singleton.mp this)
        · simp at hin
      subst hsp'
      simp [List.getLast?_append]
    · refine ⟨(convertArgs api args 0 st).1, ?_,
        convertArgs_conv_length api args 0 st, ?_⟩
      · rw [hevs]
        exact List.mem_append_right _ (List.mem_cons_self _ _)
      · intro i s hi
        obtain ⟨ptr, h1, h2, h3⟩ := convertArgs_str_marshal api args 0 st i s hi
        rw [shiftLeft2_eq] at h2 h3
        exact ⟨ptr, h1, by rw [hevs]; exact List.mem_append_left _ h2,
          by rw [hevs]; exact List.mem_append_left _ h3⟩
  · have hall : ∀ a ∈ args, a.isRef = false := by
      intro a ha
      by_contra hc
      exact href ⟨a, ha, by simpa using hc⟩
    obtain ⟨hstack, hevs0⟩ := (convertArgs_from0 api hsave args st).1 hall
    have hevs : (ccall api st args).2.2 =
        [CcallEvent.callGuest (convertArgs api args 0 st).1] := by
      simp [ccall, hstack, hevs0]
    refine ⟨⟨?_, fun h => absurd h href⟩, ?_, ?_, utf8Payload_no_trunc⟩
    · rintro ⟨sp, hsp⟩
      rw [hevs] at hsp
      simp at hsp
    · intro sp hsp
      rw [hevs] at hsp
      simp at hsp
    · refine ⟨(convertArgs api args 0 st).1, ?_,
        convertArgs_conv_length api args 0 st, ?_⟩
      · rw [hevs]
        exact List.mem_cons_self _ _
      · intro i s hi
        exfalso
        have hmem : PyArg.str s ∈ args := by
          have := List.getElem?_eq_some.mp hi
          obtain ⟨hlt, heq⟩ := this
          exact heq ▸ List.getElem_mem hlt
        have := hall _ hmem
        simp [PyArg.isRef] at this

def demoApi : GuestApi Unit where
  stackSave st := (100, st)
  stackAlloc st _ := (2, st)
  stackRestore st _ := st
  call st _ := (0, st)

def demoCcallSt : CcallSt Unit := ⟨List.replicate 16 0, ()⟩

def demoArgs : List PyArg := [PyArg.str ['H', 'i'], PyArg.int 7]

theorem C7_witness :
    ((∃ sp, CcallEvent.save sp ∈ (ccall demoApi demoCcallSt demoArgs).2.2) ↔
      ∃ a ∈ demoArgs, a.isRef = true) ∧
    (∀ sp, CcallEvent.save sp ∈ (ccall demoApi demoCcallSt demoArgs).2.2 →
      ((ccall demoApi demoCcallSt demoArgs).2.2).getLast? =
        some (CcallEvent.restore sp)) ∧
    (∃ conv : List Int,
      CcallEvent.callGuest conv ∈ (ccall demoApi demoCcallSt demoArgs).2.2 ∧
      conv.length = demoArgs.length ∧
      ∀ (i : Nat) (s : List Char),
        demoArgs[i]? = some (PyArg.str s) →
        ∃ ptr : Int, conv[i]? = some ptr ∧
          CcallEvent.alloc (4 * s.length + 1) ptr ∈
            (ccall demoApi demoCcallSt demoArgs).2.2 ∧
          CcallEvent.write ptr.toNat (utf8Payload s (4 * s.length + 1)) ∈
            (ccall demoApi demoCcallSt demoArgs).2.2) ∧
    (∀ s : List Char,
      utf8Payload s (4 * s.length + 1) = utf8Encode s ++ [0]) :=
  C7_ccall_marshaling demoApi (fun _ => by simp [demoApi]) demoCcallSt
    demoArgs

end Pymonalisa
